import Mathlib

/-!
Verification development for the CSV analysis engine of the CODELENSE
repository (`src/unnamed/part_000`).  The engine classifies columns of a
parsed CSV as numeric or categorical (`analyzeData`), summarizes them,
builds ranked frequency tables (`getChartData`), plans charts
(`getBestChartsForData`) and derives line / comparison series
(`getLineChartData`, `getComparisonData`).

Modelling conventions:
* JavaScript numbers are modelled as rationals (`ℚ`); the model has no
  floating-point rounding, `NaN` or `Infinity` *values* inside cells.  Where
  the source can produce `NaN` (e.g. `parseFloat` of a non-numeric string)
  the model uses `Option ℚ` with `none` standing for `NaN`.
* The ECMAScript string-to-number builtins are modelled on decimal numeric
  literals (optional sign, digits, fraction, exponent, surrounding
  whitespace).  Non-decimal forms (hex literals, `Infinity`) are outside the
  model.  `jsToNumber` models `ToNumber` (used by the global `isNaN` /
  `isFinite`), `jsParseFloat` models `parseFloat` (longest valid numeric
  prefix of the string).
* JavaScript object key enumeration (`Object.entries` / `Object.keys`)
  returns array-index-like keys first in ascending numeric order, then the
  remaining keys in insertion order; `jsEntries` models this.
* `Array.prototype.sort` is stable (ES2019).  A stable sort's output is
  determined by the comparator together with the input order, so the
  insertion sorts below are exact models of the source's `sort` calls.
-/

/-- A CSV cell as delivered by the parser: null/missing, a number, or a
string (spec §3 data model). -/
inductive Cell where
  | null : Cell
  | num : ℚ → Cell
  | str : String → Cell
deriving DecidableEq

/-- Characters the ECMAScript number grammar treats as whitespace. -/
def jsWS (c : Char) : Bool :=
  c == ' ' || c == '\t' || c == '\n' || c == '\r'

/-- Numeric value of a list of decimal digit characters. -/
def natOfDigits (l : List Char) : Nat :=
  l.foldl (fun a c => 10 * a + (c.toNat - 48)) 0

/-- Consume an optional leading sign, returning the sign as a rational
factor. -/
def parseSign : List Char → ℚ × List Char
  | '-' :: r => (-1, r)
  | '+' :: r => (1, r)
  | cs => (1, cs)

/-- Consume an optional leading sign of an exponent, returning whether it is
negative. -/
def parseExpSign : List Char → Bool × List Char
  | '-' :: r => (true, r)
  | '+' :: r => (false, r)
  | cs => (false, cs)

/-- Parse an unsigned decimal mantissa (`digits`, `digits.digits`,
`.digits`, `digits.`) from the front of the input. -/
def parseMantissa (cs : List Char) : Option (ℚ × List Char) :=
  let ip := cs.takeWhile Char.isDigit
  let r1 := cs.dropWhile Char.isDigit
  match r1 with
  | '.' :: r2 =>
    let fp := r2.takeWhile Char.isDigit
    let r3 := r2.dropWhile Char.isDigit
    if ip.isEmpty && fp.isEmpty then none
    else some ((natOfDigits ip : ℚ) + (natOfDigits fp : ℚ) / 10 ^ fp.length, r3)
  | _ => if ip.isEmpty then none else some ((natOfDigits ip : ℚ), r1)

/-- Parse an optional exponent part (`e`/`E`, optional sign, digits),
returning the multiplier it denotes; an `e` not followed by digits is left
unconsumed (multiplier 1), matching ECMAScript backtracking. -/
def parseExpPart (cs : List Char) : ℚ × List Char :=
  match cs with
  | c :: r =>
    if c == 'e' || c == 'E' then
      let sg := parseExpSign r
      let ed := sg.2.takeWhile Char.isDigit
      let r2 := sg.2.dropWhile Char.isDigit
      if ed.isEmpty then (1, cs)
      else if sg.1 then (1 / 10 ^ natOfDigits ed, r2)
      else (10 ^ natOfDigits ed, r2)
    else (1, cs)
  | [] => (1, [])

/-- Parse a signed decimal numeral from the front of the input, returning
its value and the unconsumed rest. -/
def parseNum (cs : List Char) : Option (ℚ × List Char) :=
  let s1 := parseSign cs
  match parseMantissa s1.2 with
  | none => none
  | some (m, cs2) =>
    let e := parseExpPart cs2
    some (s1.1 * m * e.1, e.2)

/-- Model of ECMAScript `ToNumber` on a string (decimal literals only):
the whole trimmed string must be a numeral; the empty / whitespace-only
string converts to 0; `none` stands for `NaN`. -/
def jsToNumber (s : String) : Option ℚ :=
  let t := ((s.toList.dropWhile jsWS).reverse.dropWhile jsWS).reverse
  if t.isEmpty then some 0
  else
    match parseNum t with
    | some (v, []) => some v
    | _ => none

/-- Model of ECMAScript `parseFloat` (decimal literals only): the longest
numeric prefix after leading whitespace; `none` stands for `NaN`. -/
def jsParseFloat (s : String) : Option ℚ :=
  match parseNum (s.toList.dropWhile jsWS) with
  | some (v, _) => some v
  | none => none

/-- Decimal digits of the fractional part `r / d` (`0 ≤ r < d`), emitted
until the remainder vanishes or the fuel runs out. -/
def fracDigits : Nat → Nat → Nat → String
  | 0, _, _ => ""
  | _ + 1, 0, _ => ""
  | fuel + 1, r, d =>
    String.singleton (Char.ofNat (48 + r * 10 / d)) ++ fracDigits fuel (r * 10 % d) d

/-- Decimal string of an integer, modelling JavaScript `String(n)`. -/
def intStr (z : ℤ) : String :=
  if z < 0 then "-" ++ Nat.repr z.natAbs else Nat.repr z.natAbs

/-- Model of JavaScript `String(v)` for a number: exact for integers; for
non-integers the terminating decimal expansion (up to 32 digits), which
agrees with JavaScript on the short decimal fractions that round-trip. -/
def jsStringOfRat (q : ℚ) : String :=
  if q.den = 1 then intStr q.num
  else
    (if q < 0 then "-" else "") ++
      Nat.repr (q.num.natAbs / q.den) ++ "." ++
      fracDigits 32 (q.num.natAbs % q.den) q.den

/-- Stringification of a cell, modelling `String(v)` as used for frequency
keys.  Null cells are filtered out before stringification in the source. -/
def cellKey : Cell → String
  | .null => "null"
  | .num q => jsStringOfRat q
  | .str s => s

/-- The filter `v !== null && v !== "" && v !== undefined` applied to a
column's raw values (`analyzeData` line 91, `getChartData` line 237). -/
def keepVal : Cell → Bool
  | .null => false
  | .num _ => true
  | .str s => s ≠ ""

/-- The numeric-value test of `analyzeData` (lines 92–96):
`(!isNaN(v) && v !== "" && typeof v !== "string") || (typeof v === "string"
&& !isNaN(parseFloat(v)) && isFinite(v))`.  For a string both
`parseFloat(v)` must parse (non-`NaN`) and the global `isFinite(v)` must
hold, i.e. `ToNumber(v)` is a finite number — a whole-string parse.  A null
cell satisfies the first disjunct in JavaScript (`isNaN(null)` is false,
`typeof null` is `"object"`), but nulls never reach this test. -/
def isNumericCell : Cell → Bool
  | .null => true
  | .num _ => true
  | .str s => (jsParseFloat s).isSome && (jsToNumber s).isSome

/-- The coercion `typeof v === "number" ? v : parseFloat(v)` (lines 102–104,
516–517, 501).  `none` stands for `NaN`. -/
def coerceOpt : Cell → Option ℚ
  | .null => none
  | .num q => some q
  | .str s => jsParseFloat s

/-- Total version of the coercion for values that already passed the
numeric-value test (where `parseFloat` is known to succeed). -/
def coerceNum (c : Cell) : ℚ := (coerceOpt c).getD 0

/-- Non-empty values of a column (`values` in `analyzeData`). -/
def keptCells (values : List Cell) : List Cell := values.filter keepVal

/-- Numeric-qualifying values of a column (`numericValues`). -/
def numericCells (values : List Cell) : List Cell :=
  (keptCells values).filter isNumericCell

/-- Column classification outcome (spec §4.1). -/
inductive ColClass where
  | numeric : ColClass
  | categorical : ColClass
deriving DecidableEq

/-- The classification decision of `analyzeData` (lines 98–101):
`numericValues.length > values.length * 0.5 && numericValues.length > 0`.
`n > m * 0.5` on the exactly-represented lengths is `2 * n > m`. -/
def classify (values : List Cell) : ColClass :=
  if 2 * (numericCells values).length > (keptCells values).length ∧
      (numericCells values).length > 0 then .numeric else .categorical

/-- Insert into an ascending-sorted list, after equal elements; folding this
over the input from the right is a stable ascending sort, the model of
`sort((a, b) => a - b)` (line 106). -/
def insortAsc (x : ℚ) : List ℚ → List ℚ
  | [] => [x]
  | y :: ys => if y < x then y :: insortAsc x ys else x :: y :: ys

/-- Stable ascending sort of the coerced numeric values. -/
def sortAsc (l : List ℚ) : List ℚ := l.foldr insortAsc []

/-- Insert into a descending-by-count sorted list, before the first entry of
equal or smaller count; folding this over the input from the right is a
stable descending sort, the model of `sort((a, b) => b[1] - a[1])`
(lines 127, 245). -/
def insortDesc (x : String × Nat) : List (String × Nat) → List (String × Nat)
  | [] => [x]
  | y :: ys => if y.2 > x.2 then y :: insortDesc x ys else x :: y :: ys

/-- Stable sort of frequency entries, descending by count. -/
def sortDesc (l : List (String × Nat)) : List (String × Nat) := l.foldr insortDesc []

/-- `freq[key] = (freq[key] || 0) + 1`: bump a key's count in an assoc list
kept in insertion order (existing keys keep their position, new keys are
appended). -/
def bump : List (String × Nat) → String → List (String × Nat)
  | [], k => [(k, 1)]
  | (k', n) :: rest, k =>
    if k' = k then (k', n + 1) :: rest else (k', n) :: bump rest k

/-- Tally of a list of keys into a frequency assoc list, in insertion
order (lines 122–126, 235–242). -/
def tally (ks : List String) : List (String × Nat) := ks.foldl bump []

/-- Whether a string is a canonical array-index key (`"0"`, `"1"`, …,
below 2^32 − 1, no leading zeros); such keys enumerate first in JavaScript
objects. -/
def isArrayIndexStr (s : String) : Bool :=
  let cs := s.toList
  (!cs.isEmpty) && cs.all Char.isDigit &&
    (cs.head? ≠ some '0' || cs.length == 1) &&
    natOfDigits cs < 4294967295

/-- Insert into a list sorted ascending by the numeric value of the key. -/
def insortIdx {α : Type} (x : String × α) : List (String × α) → List (String × α)
  | [] => [x]
  | y :: ys =>
    if natOfDigits y.1.toList < natOfDigits x.1.toList then y :: insortIdx x ys
    else x :: y :: ys

/-- Sort array-index keys ascending by numeric value. -/
def sortIdx {α : Type} (l : List (String × α)) : List (String × α) :=
  l.foldr insortIdx []

/-- Model of `Object.entries` / `Object.keys` enumeration order: canonical
array-index keys first in ascending numeric order, then the remaining keys
in insertion order. -/
def jsEntries {α : Type} (l : List (String × α)) : List (String × α) :=
  sortIdx (l.filter fun e => isArrayIndexStr e.1) ++
    (l.filter fun e => !isArrayIndexStr e.1)

/-- `Math.min(...numbers)` for a non-empty list. -/
def jsMin : List ℚ → ℚ
  | [] => 0
  | x :: xs => xs.foldl min x

/-- `Math.max(...numbers)` for a non-empty list. -/
def jsMax : List ℚ → ℚ
  | [] => 0
  | x :: xs => xs.foldl max x

/-- `toFixed(2)` as a rounding of the rational value to 2 fractional
digits (ties round up, as the larger candidate is chosen). -/
def round2 (q : ℚ) : ℚ := ((round (q * 100) : ℤ) : ℚ) / 100

/-- `toFixed(1)` as a rounding of the rational value to 1 fractional
digit. -/
def round1 (q : ℚ) : ℚ := ((round (q * 10) : ℤ) : ℚ) / 10

/-- The median of the ascending-sorted values (lines 107–111): even length
averages the two central elements, odd length takes the central element. -/
def medianOf (sorted : List ℚ) : ℚ :=
  let mid := sorted.length / 2
  if sorted.length % 2 = 0 then (sorted.getD (mid - 1) 0 + sorted.getD mid 0) / 2
  else sorted.getD mid 0

/-- The coerced numeric values of a column (`numbers`, lines 102–104). -/
def colNumbers (values : List Cell) : List ℚ :=
  (numericCells values).map coerceNum

/-- Numeric column summary (lines 113–120).  The source formats every field
except `count` with `toFixed(2)`; the fields here carry those rounded
values. -/
structure NumSummary where
  mean : ℚ
  median : ℚ
  min : ℚ
  max : ℚ
  sum : ℚ
  count : Nat
deriving DecidableEq

/-- The numeric branch of `analyzeData` (lines 102–120). -/
def numSummary (values : List Cell) : NumSummary :=
  let numbers := colNumbers values
  let s := numbers.sum
  { mean := round2 (s / numbers.length)
    median := round2 (medianOf (sortAsc numbers))
    min := round2 (jsMin numbers)
    max := round2 (jsMax numbers)
    sum := round2 s
    count := numbers.length }

/-- Categorical column summary (lines 128–133). -/
structure CatSummary where
  unique : Nat
  mostCommon : Option (String × Nat)
  distribution : List (String × Nat)
  total : Nat
deriving DecidableEq

/-- The categorical branch of `analyzeData` (lines 121–134): tally the
stringified non-empty values, sort the object's entries descending by
count, take the head as `mostCommon` (`undefined`, i.e. `none`, when
empty). -/
def catSummary (values : List Cell) : CatSummary :=
  let freq := tally ((keptCells values).map cellKey)
  { unique := freq.length
    mostCommon := (sortDesc (jsEntries freq)).head?
    distribution := freq
    total := (keptCells values).length }

/-- Profile of a single column: exactly one of the two variants. -/
inductive ColProfile where
  | numeric : NumSummary → ColProfile
  | categorical : CatSummary → ColProfile
deriving DecidableEq

/-- Per-column dispatch of `analyzeData` (lines 88–135). -/
def analyzeColumn (values : List Cell) : ColProfile :=
  match classify values with
  | .numeric => .numeric (numSummary values)
  | .categorical => .categorical (catSummary values)

/-- A parsed CSV row: column name to cell, as an assoc list. -/
abbrev Row : Type := List (String × Cell)

/-- Cell of a row at a column; a missing key behaves like null (the source's
guards treat `undefined` and `null` alike everywhere modelled here). -/
def getCell (row : Row) (col : String) : Cell :=
  match List.lookup col row with
  | some c => c
  | none => .null

/-- The raw values of one column across all rows
(`csvData.map(row => row[header])`). -/
def colValues (rows : List Row) (col : String) : List Cell :=
  rows.map fun r => getCell r col

/-- Result shape of `analyzeData` (lines 137–142); `numeric` and
`categorical` are objects keyed by header in insertion order. -/
structure Analysis where
  totalRows : Nat
  totalColumns : Nat
  numeric : List (String × NumSummary)
  categorical : List (String × CatSummary)
deriving DecidableEq

/-- The whole `analyzeData` (lines 84–143). -/
def analyzeData (rows : List Row) (cols : List String) : Analysis :=
  { totalRows := rows.length
    totalColumns := cols.length
    numeric := cols.filterMap fun h =>
      match analyzeColumn (colValues rows h) with
      | .numeric s => some (h, s)
      | .categorical _ => none
    categorical := cols.filterMap fun h =>
      match analyzeColumn (colValues rows h) with
      | .numeric _ => none
      | .categorical s => some (h, s) }

/-- One entry of the frequency projection (lines 247–254). -/
structure ChartEntry where
  name : String
  value : Nat
  percentage : ℚ
deriving DecidableEq

/-- Label truncation of `getChartData` (lines 248–251): over 20 characters,
keep the first 20 and append an ellipsis marker. -/
def labelOf (s : String) : String :=
  if s.length > 20 then (s.take 20).push '.' |>.push '.' |>.push '.' else s

/-- Map a frequency entry to a chart entry, with the percentage computed
against the whole column's non-empty count (`totalCount`). -/
def projEntry (total : Nat) (e : String × Nat) : ChartEntry :=
  { name := labelOf e.1
    value := e.2
    percentage := round1 ((e.2 : ℚ) / (total : ℚ) * 100) }

/-- Non-empty count of a column as tallied by `getChartData`
(`totalCount`, lines 235–242). -/
def chartTotal (rows : List Row) (col : String) : Nat :=
  ((colValues rows col).filter keepVal).length

/-- The frequency table of `getChartData` (insertion order). -/
def chartFreq (rows : List Row) (col : String) : List (String × Nat) :=
  tally (((colValues rows col).filter keepVal).map cellKey)

/-- The untruncated frequency projection: all entries in the order
`getChartData` would emit them, before `slice(0, limit)`. -/
def chartEntriesAll (rows : List Row) (col : String) : List ChartEntry :=
  (sortDesc (jsEntries (chartFreq rows col))).map (projEntry (chartTotal rows col))

/-- `getChartData` (lines 229–255); `limit` defaults to 10 at the call
sites.  The early return fires when `data` is empty or `column` is falsy
(the empty string). -/
def getChartData (rows : List Row) (col : String) (limit : Nat) : List ChartEntry :=
  if rows.isEmpty || col = "" then []
  else
    ((sortDesc (jsEntries (chartFreq rows col))).take limit).map
      (projEntry (chartTotal rows col))

/-- Kind of a recommended chart. -/
inductive ChartKind where
  | pie : ChartKind
  | bar : ChartKind
  | line : ChartKind
  | comparison : ChartKind
deriving DecidableEq

/-- A chart recommendation (`charts.push` payloads, lines 450–489). -/
structure ChartSpec where
  kind : ChartKind
  columns : List String
  title : String
  description : String
deriving DecidableEq

/-- PIE recommendations (lines 447–457): categorical columns with 2–15
unique values, in object-key order. -/
def pieSpecs (a : Analysis) : List ChartSpec :=
  (jsEntries a.categorical).filterMap fun e =>
    if 2 ≤ e.2.unique ∧ e.2.unique ≤ 15 then
      some { kind := .pie, columns := [e.1], title := e.1 ++ " Distribution"
             description := "Shows the breakdown of " ++ Nat.repr e.2.total ++
               " records across " ++ Nat.repr e.2.unique ++ " categories" }
    else none

/-- BAR recommendations (lines 460–470): categorical columns with 2–20
unique values, in object-key order. -/
def barSpecs (a : Analysis) : List ChartSpec :=
  (jsEntries a.categorical).filterMap fun e =>
    if 2 ≤ e.2.unique ∧ e.2.unique ≤ 20 then
      some { kind := .bar, columns := [e.1], title := e.1 ++ " Frequency"
             description := "Count of occurrences for each " ++ e.1 }
    else none

/-- Names of the numeric columns in object-key order. -/
def numericColNames (a : Analysis) : List String :=
  (jsEntries a.numeric).map Prod.fst

/-- LINE recommendation (lines 473–480): one spec over the first three
numeric columns when at least two exist. -/
def lineSpecs (a : Analysis) : List ChartSpec :=
  if 2 ≤ (numericColNames a).length then
    [{ kind := .line, columns := (numericColNames a).take 3
       title := "Numeric Trends: " ++ String.intercalate ", " ((numericColNames a).take 3)
       description := "Shows the progression of numeric values across records" }]
  else []

/-- COMPARISON recommendation (lines 483–490): one spec over the first two
numeric columns when at least two exist. -/
def compSpecs (a : Analysis) : List ChartSpec :=
  if 2 ≤ (numericColNames a).length then
    [{ kind := .comparison, columns := (numericColNames a).take 2
       title := String.intercalate " vs " ((numericColNames a).take 2)
       description := "Comparison of two numeric variables" }]
  else []

/-- `getBestChartsForData` (lines 440–493): the four groups pushed in
order, then `slice(0, 6)`. -/
def getBestChartsForData (a : Analysis) : List ChartSpec :=
  (pieSpecs a ++ barSpecs a ++ lineSpecs a ++ compSpecs a).take 6

/-- The guard of `getLineChartData` (line 500):
`!isNaN(val) && val !== null && val !== ""`. -/
def lineKeep : Cell → Bool
  | .null => false
  | .num _ => true
  | .str s => s ≠ "" && (jsToNumber s).isSome

/-- One point of the LINE series: 1-based index plus the tracked columns
present for this row, in column order.  A `none` value stands for `NaN`. -/
structure LinePoint where
  index : Nat
  vals : List (String × Option ℚ)
deriving DecidableEq

/-- The keys set on a LINE point for one row (lines 498–503). -/
def lineVals (cols : List String) (row : Row) : List (String × Option ℚ) :=
  cols.filterMap fun c =>
    if lineKeep (getCell row c) then some (c, coerceOpt (getCell row c)) else none

/-- The indexed map underlying `getLineChartData`: one point per row of the
slice, `index = idx + 1`. -/
def lineGo (cols : List String) : List Row → Nat → List LinePoint
  | [], _ => []
  | row :: rest, idx => ⟨idx + 1, lineVals cols row⟩ :: lineGo cols rest (idx + 1)

/-- `getLineChartData` (lines 495–506): the first 50 rows mapped to
points. -/
def getLineChartData (rows : List Row) (cols : List String) : List LinePoint :=
  lineGo cols (rows.take 50) 0

/-- The per-cell guard of `getComparisonData` (line 514):
`!isNaN(val) && val !== null` — note there is no `val !== ""` here; the
empty string coerces to 0 under `ToNumber`, so it passes. -/
def compKeep : Cell → Bool
  | .null => false
  | .num _ => true
  | .str s => (jsToNumber s).isSome

/-- Whether a row survives the COMPARISON filter: both cells pass. -/
def rowKeep (c1 c2 : String) (row : Row) : Bool :=
  compKeep (getCell row c1) && compKeep (getCell row c2)

/-- One point of the COMPARISON series.  `none` values stand for `NaN`
(`parseFloat` of a kept but prefix-unparseable string). -/
structure CompPoint where
  v1 : Option ℚ
  v2 : Option ℚ
  index : Nat
deriving DecidableEq

/-- The indexed map-and-filter underlying `getComparisonData`: the map
produces `index = idx + 1` from the position in the slice, and
`filter(Boolean)` drops the rows failing the guard. -/
def compGo (c1 c2 : String) : List Row → Nat → List CompPoint
  | [], _ => []
  | row :: rest, idx =>
    if rowKeep c1 c2 row then
      ⟨coerceOpt (getCell row c1), coerceOpt (getCell row c2), idx + 1⟩ ::
        compGo c1 c2 rest (idx + 1)
    else compGo c1 c2 rest (idx + 1)

/-- `getComparisonData` (lines 508–524): the first 100 rows, mapped with
their slice position and filtered. -/
def getComparisonData (rows : List Row) (c1 c2 : String) : List CompPoint :=
  compGo c1 c2 (rows.take 100) 0

/-! ## General lemmas about the embedded operations -/

theorem mem_pieSpecs {a : Analysis} {s : ChartSpec} (h : s ∈ pieSpecs a) :
    s.kind = .pie := by
  rw [pieSpecs, List.mem_filterMap] at h
  obtain ⟨e, -, he⟩ := h
  split at he
  · cases he; rfl
  · cases he

theorem mem_barSpecs {a : Analysis} {s : ChartSpec} (h : s ∈ barSpecs a) :
    s.kind = .bar := by
  rw [barSpecs, List.mem_filterMap] at h
  obtain ⟨e, -, he⟩ := h
  split at he
  · cases he; rfl
  · cases he

theorem lineSpecs_eq_nil {a : Analysis} (h : (numericColNames a).length < 2) :
    lineSpecs a = [] := by
  rw [lineSpecs, if_neg (by omega)]

theorem compSpecs_eq_nil {a : Analysis} (h : (numericColNames a).length < 2) :
    compSpecs a = [] := by
  rw [compSpecs, if_neg (by omega)]

/-! ## C2, C9, C10, C5 -/

/-- C2: a string cell counts as numeric only when the whole string parses to
a finite number (so `"42abc"` does not), and a column is NUMERIC iff the
numeric count strictly exceeds half the non-empty count and is positive; at
the exact 50% boundary (`["42abc", "7"]`) the column is CATEGORICAL, while
`["42abc", "7", "9"]` (2 of 3) is NUMERIC. -/
theorem classify_threshold_c2 :
    isNumericCell (.str "42abc") = false ∧
    isNumericCell (.str "7") = true ∧
    (∀ s : String,
      isNumericCell (.str s) = ((jsParseFloat s).isSome && (jsToNumber s).isSome)) ∧
    (∀ values : List Cell,
      classify values =
        if 2 * (numericCells values).length > (keptCells values).length ∧
            (numericCells values).length > 0 then .numeric else .categorical) ∧
    classify [.str "42abc", .str "7"] = .categorical ∧
    classify [.str "42abc", .str "7", .str "9"] = .numeric := by
  refine ⟨?_, ?_, fun s => rfl, fun values => rfl, ?_, ?_⟩ <;> with_unfolding_all rfl

/-- C9: the NUMERIC/CATEGORICAL outcome of `classify` is invariant under any
permutation of the column's values. -/
theorem classify_perm_c9 (v w : List Cell) (h : v.Perm w) :
    classify v = classify w := by
  have h1 : (keptCells v).length = (keptCells w).length :=
    (h.filter keepVal).length_eq
  have h2 : (numericCells v).length = (numericCells w).length :=
    ((h.filter keepVal).filter isNumericCell).length_eq
  unfold classify
  rw [keptCells, keptCells, numericCells, numericCells, keptCells, keptCells] at *
  rw [h1, h2]

/-- Witness for C9 at a concrete column and a transposition of it. -/
theorem classify_perm_c9_witness :
    classify [Cell.num 1, Cell.str "a"] = classify [Cell.str "a", Cell.num 1] :=
  classify_perm_c9 _ _ (List.Perm.swap (Cell.str "a") (Cell.num 1) [])

/-- C10: a column with zero non-empty values produces a categorical profile
with empty distribution, `uniqueCount` 0, `total` 0 and no `mostCommon`
entry, and never a numeric profile. -/
theorem empty_column_c10 (values : List Cell) (h : keptCells values = []) :
    analyzeColumn values = .categorical ⟨0, none, [], 0⟩ := by
  have hn : numericCells values = [] := by rw [numericCells, h]; rfl
  have hc : classify values = .categorical := by
    unfold classify
    rw [hn, h]
    simp
  simp only [analyzeColumn, hc]
  simp only [catSummary, h]
  rfl

/-- Witness for C10 at a column whose cells are all null or empty. -/
theorem empty_column_c10_witness :
    keptCells [Cell.null, Cell.str ""] = [] ∧
    analyzeColumn [Cell.null, Cell.str ""] = .categorical ⟨0, none, [], 0⟩ :=
  ⟨by with_unfolding_all rfl, empty_column_c10 _ (by with_unfolding_all rfl)⟩

/-- C5: the chart plan is the 6-truncated concatenation of PIE specs
(categorical, 2–15 unique), BAR specs (categorical, 2–20 unique), one LINE
spec over the first 3 numeric columns when at least 2 exist, and one
COMPARISON spec over the first 2; it never exceeds 6 specs and emits no
LINE or COMPARISON spec with fewer than 2 numeric columns. -/
theorem chart_plan_c5 (a : Analysis) :
    getBestChartsForData a =
      (pieSpecs a ++ barSpecs a ++ lineSpecs a ++ compSpecs a).take 6 ∧
    (getBestChartsForData a).length ≤ 6 ∧
    ((numericColNames a).length < 2 →
      ∀ s ∈ getBestChartsForData a, s.kind ≠ .line ∧ s.kind ≠ .comparison) := by
  refine ⟨rfl, ?_, ?_⟩
  · rw [getBestChartsForData, List.length_take]
    omega
  · intro hlt s hs
    have hs' : s ∈ pieSpecs a ++ barSpecs a ++ lineSpecs a ++ compSpecs a :=
      List.take_subset _ _ hs
    rw [lineSpecs_eq_nil hlt, compSpecs_eq_nil hlt] at hs'
    simp only [List.append_nil] at hs'
    rcases List.mem_append.1 hs' with hp | hb
    · rw [mem_pieSpecs hp]
      exact ⟨by decide, by decide⟩
    · rw [mem_barSpecs hb]
      exact ⟨by decide, by decide⟩

/-- Witness for C5 at the empty profile, which has fewer than 2 numeric
columns. -/
theorem chart_plan_c5_witness :
    (numericColNames ⟨0, 0, [], []⟩).length < 2 ∧
    ∀ s ∈ getBestChartsForData ⟨0, 0, [], []⟩,
      s.kind ≠ .line ∧ s.kind ≠ .comparison :=
  ⟨by decide, (chart_plan_c5 ⟨0, 0, [], []⟩).2.2 (by decide)⟩

theorem getD_mem {α : Type} (l : List α) (n : Nat) (d : α) (h : n < l.length) :
    l.getD n d ∈ l := by
  induction l generalizing n with
  | nil => simp at h
  | cons a t ih =>
    cases n with
    | zero => simp
    | succ m =>
      rw [List.getD_cons_succ]
      exact List.mem_cons_of_mem a (ih m (by simpa using h))

theorem compGo_length (c1 c2 : String) (l : List Row) :
    ∀ i : Nat, (compGo c1 c2 l i).length = (l.filter (rowKeep c1 c2)).length := by
  induction l with
  | nil => intro i; rfl
  | cons r t ih =>
    intro i
    by_cases h : rowKeep c1 c2 r = true
    · simp [compGo, h, List.filter_cons, ih]
    · simp [compGo, h, List.filter_cons, ih]

theorem compGo_mem (c1 c2 : String) (l : List Row) :
    ∀ (i : Nat) (p : CompPoint), p ∈ compGo c1 c2 l i →
      ∃ j, j < l.length ∧ p.index = i + j + 1 ∧
        rowKeep c1 c2 (l.getD j []) = true ∧
        p.v1 = coerceOpt (getCell (l.getD j []) c1) ∧
        p.v2 = coerceOpt (getCell (l.getD j []) c2) := by
  induction l with
  | nil => intro i p hp; simp [compGo] at hp
  | cons r t ih =>
    intro i p hp
    by_cases h : rowKeep c1 c2 r = true
    · rw [compGo, if_pos h] at hp
      rcases List.mem_cons.1 hp with rfl | hp'
      · exact ⟨0, by simp, by simp, by simpa using h, rfl, rfl⟩
      · obtain ⟨j, hj, hidx, hk, h1, h2⟩ := ih (i + 1) p hp'
        refine ⟨j + 1, by simpa using Nat.succ_lt_succ hj, by omega, ?_, ?_, ?_⟩
        · rw [List.getD_cons_succ]; exact hk
        · rw [List.getD_cons_succ]; exact h1
        · rw [List.getD_cons_succ]; exact h2
    · rw [compGo, if_neg h] at hp
      obtain ⟨j, hj, hidx, hk, h1, h2⟩ := ih (i + 1) p hp
      refine ⟨j + 1, by simpa using Nat.succ_lt_succ hj, by omega, ?_, ?_, ?_⟩
      · rw [List.getD_cons_succ]; exact hk
      · rw [List.getD_cons_succ]; exact h1
      · rw [List.getD_cons_succ]; exact h2

theorem compGo_sorted (c1 c2 : String) (l : List Row) :
    ∀ i : Nat, ((compGo c1 c2 l i).map CompPoint.index).Pairwise (· < ·) := by
  induction l with
  | nil => intro i; simp [compGo]
  | cons r t ih =>
    intro i
    by_cases h : rowKeep c1 c2 r = true
    · rw [compGo, if_pos h, List.map_cons]
      refine List.Pairwise.cons ?_ (ih (i + 1))
      intro q hq
      rw [List.mem_map] at hq
      obtain ⟨p, hp, rfl⟩ := hq
      obtain ⟨j, -, hidx, -, -, -⟩ := compGo_mem c1 c2 t (i + 1) p hp
      simp only [CompPoint.index]
      omega
    · rw [compGo, if_neg h]
      exact ih (i + 1)

/-! ## C1, C3 -/

/-- C1 amended: each COMPARISON point's index is the 1-based position of its
row within the first-100 slice in the *original* row order (indices are
strictly increasing but keep gaps where rows were dropped — they are not the
sequential post-filter positions 1, 2, 3, …). -/
theorem comparison_index_c1 (rows : List Row) (c1 c2 : String) :
    (∀ p ∈ getComparisonData rows c1 c2,
      ∃ j, j < (rows.take 100).length ∧ p.index = j + 1 ∧
        rowKeep c1 c2 ((rows.take 100).getD j []) = true ∧
        p.v1 = coerceOpt (getCell ((rows.take 100).getD j []) c1) ∧
        p.v2 = coerceOpt (getCell ((rows.take 100).getD j []) c2)) ∧
    ((getComparisonData rows c1 c2).map CompPoint.index).Pairwise (· < ·) := by
  constructor
  · intro p hp
    obtain ⟨j, hj, hidx, hk, h1, h2⟩ := compGo_mem c1 c2 (rows.take 100) 0 p hp
    exact ⟨j, hj, by omega, hk, h1, h2⟩
  · exact compGo_sorted c1 c2 (rows.take 100) 0

/-- Input refuting C1 as stated: the first row's `"a"` cell is the
non-numeric string `"x"`, so that row is dropped. -/
def c1CexRows : List Row :=
  [[("a", Cell.str "x"), ("b", Cell.num 1)], [("a", Cell.num 2), ("b", Cell.num 3)]]

/-- C1 counterexample: the single surviving point carries index 2 (its
original row position), not the sequential post-filter index 1 the claim
requires (`range' 1 1 = [1]`). -/
theorem comparison_index_c1_cex :
    (getComparisonData c1CexRows "a" "b").map CompPoint.index = [2] ∧
    (getComparisonData c1CexRows "a" "b").length = 1 ∧
    [2] ≠ List.range' 1 1 :=
  ⟨by with_unfolding_all rfl, by with_unfolding_all rfl, by decide⟩

/-- C3 amended: the COMPARISON series looks at the first 100 rows only and
its length is at most 100 and at most the row count; a row is emitted iff
both cells are non-null and their `ToNumber` coercion is a number (not
`NaN`), and an emitted point carries the `parseFloat` coercions of its two
cells — which is `NaN` (modelled `none`), not a dropped row, when a kept
cell is the empty or a whitespace-only string. -/
theorem comparison_filter_c3 (rows : List Row) (c1 c2 : String) :
    (getComparisonData rows c1 c2).length ≤ 100 ∧
    (getComparisonData rows c1 c2).length ≤ rows.length ∧
    (getComparisonData rows c1 c2).length =
      ((rows.take 100).filter (rowKeep c1 c2)).length ∧
    ∀ p ∈ getComparisonData rows c1 c2, ∃ row ∈ rows.take 100,
      rowKeep c1 c2 row = true ∧
      p.v1 = coerceOpt (getCell row c1) ∧ p.v2 = coerceOpt (getCell row c2) := by
  have hlen : (getComparisonData rows c1 c2).length =
      ((rows.take 100).filter (rowKeep c1 c2)).length :=
    compGo_length c1 c2 (rows.take 100) 0
  have htake : (rows.take 100).length ≤ 100 := by
    rw [List.length_take]; omega
  have htake' : (rows.take 100).length ≤ rows.length := by
    rw [List.length_take]; omega
  have hfle : ((rows.take 100).filter (rowKeep c1 c2)).length ≤ (rows.take 100).length :=
    List.length_filter_le _ _
  refine ⟨by omega, by omega, hlen, ?_⟩
  intro p hp
  obtain ⟨j, hj, -, hk, h1, h2⟩ := compGo_mem c1 c2 (rows.take 100) 0 p hp
  exact ⟨(rows.take 100).getD j [], getD_mem _ j [] hj, hk, h1, h2⟩

/-- Input refuting C3 as stated: the `"a"` cell of the only row is the empty
string. -/
def c3CexRows : List Row := [[("a", Cell.str ""), ("b", Cell.num 1)]]

/-- C3 counterexample: a row whose first tracked cell is the empty string is
not dropped — `isNaN("") ` is false since `ToNumber("")` is 0 — and the
emitted point's first value is `parseFloat("")`, i.e. `NaN` (`none`), so a
partial/NaN point is emitted. -/
theorem comparison_filter_c3_cex :
    getComparisonData c3CexRows "a" "b" = [⟨none, some 1, 1⟩] ∧
    keepVal (Cell.str "") = false :=
  ⟨by with_unfolding_all rfl, by with_unfolding_all rfl⟩

/-! ## C8 -/

theorem lineGo_length (cols : List String) (l : List Row) :
    ∀ i : Nat, (lineGo cols l i).length = l.length := by
  induction l with
  | nil => intro i; rfl
  | cons r t ih => intro i; simp [lineGo, ih]

theorem lineGo_indices (cols : List String) (l : List Row) :
    ∀ i : Nat, (lineGo cols l i).map LinePoint.index = List.range' (i + 1) l.length := by
  induction l with
  | nil => intro i; rfl
  | cons r t ih =>
    intro i
    rw [lineGo, List.map_cons, List.length_cons, List.range'_succ, ih (i + 1)]

theorem lineGo_mem (cols : List String) (l : List Row) :
    ∀ (i : Nat) (p : LinePoint), p ∈ lineGo cols l i →
      ∃ row ∈ l, p.vals = lineVals cols row := by
  induction l with
  | nil => intro i p hp; simp [lineGo] at hp
  | cons r t ih =>
    intro i p hp
    rw [lineGo] at hp
    rcases List.mem_cons.1 hp with rfl | hp'
    · exact ⟨r, List.mem_cons_self r t, rfl⟩
    · obtain ⟨row, hrow, hv⟩ := ih (i + 1) p hp'
      exact ⟨row, List.mem_cons_of_mem r hrow, hv⟩

theorem lineVals_mem {cols : List String} {row : Row} {c : String} {v : Option ℚ}
    (h : (c, v) ∈ lineVals cols row) :
    c ∈ cols ∧ lineKeep (getCell row c) = true ∧ v = coerceOpt (getCell row c) := by
  rw [lineVals, List.mem_filterMap] at h
  obtain ⟨c', hc', he⟩ := h
  split at he
  · cases he
    exact ⟨hc', by assumption, rfl⟩
  · cases he

/-- C8 amended: the LINE series covers exactly the first 50 rows, each
point's index is its 1-based position within the slice, and a tracked
column's key appears in a point iff the cell is non-null, not the empty
string, and its `ToNumber` coercion is a number; the emitted value is the
`parseFloat` coercion, which is `NaN` (modelled `none`) for a kept cell
that is a whitespace-only string (such a cell is not numeric-parseable, yet
its key is emitted). -/
theorem line_series_c8 (rows : List Row) (cols : List String) :
    (getLineChartData rows cols).length = min 50 rows.length ∧
    (getLineChartData rows cols).map LinePoint.index =
      List.range' 1 (rows.take 50).length ∧
    ∀ p ∈ getLineChartData rows cols, ∃ row ∈ rows.take 50,
      p.vals = lineVals cols row ∧
      ∀ c v, (c, v) ∈ p.vals →
        c ∈ cols ∧ lineKeep (getCell row c) = true ∧ v = coerceOpt (getCell row c) := by
  refine ⟨?_, lineGo_indices cols (rows.take 50) 0, ?_⟩
  · rw [getLineChartData, lineGo_length, List.length_take]
  · intro p hp
    obtain ⟨row, hrow, hv⟩ := lineGo_mem cols (rows.take 50) 0 p hp
    refine ⟨row, hrow, hv, ?_⟩
    intro c v hcv
    rw [hv] at hcv
    exact lineVals_mem hcv

/-- Input refuting C8 as stated: a single row whose `"a"` cell is a
whitespace-only string. -/
def c8CexRows : List Row := [[("a", Cell.str " ")]]

/-- C8 counterexample: the whitespace-only cell `" "` is not
numeric-parseable (`parseFloat` yields `NaN`, and it fails the
classifier's numeric test), yet its key is emitted in the point — with
value `NaN` (`none`) rather than a coerced number. -/
theorem line_series_c8_cex :
    getLineChartData c8CexRows ["a"] = [⟨1, [("a", none)]⟩] ∧
    isNumericCell (Cell.str " ") = false :=
  ⟨by with_unfolding_all rfl, by with_unfolding_all rfl⟩

/-! ## C4 -/

theorem filter_insortDesc (x : String × Nat) (l : List (String × Nat)) (c : Nat) :
    (insortDesc x l).filter (fun e => e.2 == c) =
      if x.2 == c then x :: l.filter (fun e => e.2 == c)
      else l.filter (fun e => e.2 == c) := by
  induction l with
  | nil =>
    simp only [insortDesc, List.filter_cons, List.filter_nil]
  | cons y ys ih =>
    simp only [insortDesc]
    by_cases hyx : y.2 > x.2
    · rw [if_pos hyx, List.filter_cons, ih]
      by_cases hx : x.2 = c
      · have hxb : (x.2 == c) = true := by simpa using hx
        have hyb : (y.2 == c) = false := by
          simp only [beq_eq_false_iff_ne, ne_eq]
          omega
        simp [hxb, hyb, List.filter_cons]
      · have hxb : (x.2 == c) = false := by simpa using hx
        simp [hxb, List.filter_cons]
    · rw [if_neg hyx]
      by_cases hx : x.2 = c
      · have hxb : (x.2 == c) = true := by simpa using hx
        simp [List.filter_cons, hxb]
      · have hxb : (x.2 == c) = false := by simpa using hx
        simp [List.filter_cons, hxb]

theorem filter_sortDesc (l : List (String × Nat)) (c : Nat) :
    (sortDesc l).filter (fun e => e.2 == c) = l.filter (fun e => e.2 == c) := by
  induction l with
  | nil => rfl
  | cons a t ih =>
    have hrw : sortDesc (a :: t) = insortDesc a (sortDesc t) := rfl
    rw [hrw, filter_insortDesc, ih, List.filter_cons]

theorem mem_insortDesc {z x : String × Nat} {l : List (String × Nat)} :
    z ∈ insortDesc x l ↔ z = x ∨ z ∈ l := by
  induction l with
  | nil => simp [insortDesc]
  | cons y ys ih =>
    simp only [insortDesc]
    by_cases h : y.2 > x.2
    · rw [if_pos h]
      simp only [List.mem_cons, ih]
      tauto
    · rw [if_neg h]
      simp only [List.mem_cons]

theorem pairwise_insortDesc {x : String × Nat} {l : List (String × Nat)}
    (h : l.Pairwise (fun a b => b.2 ≤ a.2)) :
    (insortDesc x l).Pairwise (fun a b => b.2 ≤ a.2) := by
  induction l with
  | nil => simp [insortDesc]
  | cons y ys ih =>
    rw [List.pairwise_cons] at h
    obtain ⟨hy, hys⟩ := h
    simp only [insortDesc]
    by_cases hyx : y.2 > x.2
    · rw [if_pos hyx, List.pairwise_cons]
      refine ⟨?_, ih hys⟩
      intro z hz
      rcases mem_insortDesc.1 hz with rfl | hz'
      · omega
      · exact hy z hz'
    · rw [if_neg hyx, List.pairwise_cons]
      refine ⟨?_, List.Pairwise.cons hy hys⟩
      intro z hz
      rcases List.mem_cons.1 hz with rfl | hz'
      · omega
      · have := hy z hz'
        omega

theorem pairwise_sortDesc (l : List (String × Nat)) :
    (sortDesc l).Pairwise (fun a b => b.2 ≤ a.2) := by
  induction l with
  | nil => simp [sortDesc]
  | cons a t ih => exact pairwise_insortDesc ih

theorem insortDesc_perm (x : String × Nat) (l : List (String × Nat)) :
    (insortDesc x l).Perm (x :: l) := by
  induction l with
  | nil => exact List.Perm.refl _
  | cons y ys ih =>
    simp only [insortDesc]
    by_cases h : y.2 > x.2
    · rw [if_pos h]
      exact (ih.cons y).trans (List.Perm.swap x y ys)
    · rw [if_neg h]

theorem sortDesc_perm (l : List (String × Nat)) : (sortDesc l).Perm l := by
  induction l with
  | nil => exact List.Perm.refl _
  | cons a t ih =>
    have hrw : sortDesc (a :: t) = insortDesc a (sortDesc t) := rfl
    rw [hrw]
    exact (insortDesc_perm a (sortDesc t)).trans (ih.cons a)

theorem insortIdx_perm {α : Type} (x : String × α) (l : List (String × α)) :
    (insortIdx x l).Perm (x :: l) := by
  induction l with
  | nil => exact List.Perm.refl _
  | cons y ys ih =>
    simp only [insortIdx]
    by_cases h : natOfDigits y.1.toList < natOfDigits x.1.toList
    · rw [if_pos h]
      exact (ih.cons y).trans (List.Perm.swap x y ys)
    · rw [if_neg h]

theorem sortIdx_perm {α : Type} (l : List (String × α)) : (sortIdx l).Perm l := by
  induction l with
  | nil => exact List.Perm.refl _
  | cons a t ih =>
    have hrw : sortIdx (a :: t) = insortIdx a (sortIdx t) := rfl
    rw [hrw]
    exact (insortIdx_perm a (sortIdx t)).trans (ih.cons a)

theorem jsEntries_perm {α : Type} (l : List (String × α)) : (jsEntries l).Perm l := by
  rw [jsEntries]
  exact ((sortIdx_perm _).append_right _).trans
    (List.filter_append_perm (fun e => isArrayIndexStr e.1) l)

/-- C4 amended: both `mostCommon` and the frequency projection order come
from the stable descending-by-count sort of the JavaScript *object
enumeration order* of the tallied keys — canonical array-index keys (such as
stringified integers) first in ascending numeric order, then the remaining
keys in first-encountered order.  Ties are therefore broken by that
enumeration order, not by plain first-encountered order when integer-like
keys are involved: within each count the sorted list keeps exactly the
enumeration order, and counts are descending. -/
theorem freq_tie_c4 (values : List Cell) (rows : List Row) (col : String) (c : Nat) :
    (catSummary values).mostCommon =
      (sortDesc (jsEntries (tally ((keptCells values).map cellKey)))).head? ∧
    (sortDesc (jsEntries (tally ((keptCells values).map cellKey)))).filter
        (fun e => e.2 == c) =
      (jsEntries (tally ((keptCells values).map cellKey))).filter (fun e => e.2 == c) ∧
    (sortDesc (jsEntries (tally ((keptCells values).map cellKey)))).Pairwise
      (fun a b => b.2 ≤ a.2) ∧
    (sortDesc (jsEntries (chartFreq rows col))).filter (fun e => e.2 == c) =
      (jsEntries (chartFreq rows col)).filter (fun e => e.2 == c) ∧
    (sortDesc (jsEntries (chartFreq rows col))).Pairwise (fun a b => b.2 ≤ a.2) :=
  ⟨rfl, filter_sortDesc _ c, pairwise_sortDesc _, filter_sortDesc _ c,
    pairwise_sortDesc _⟩

/-- C4 counterexample: in the column `[5, 3]` both values occur once; the
first-encountered order of the stringified values is `"5"` then `"3"`, yet
`mostCommon` is `("3", 1)`, because the keys are integer-like and JavaScript
objects enumerate them in ascending numeric order before the tie-preserving
sort runs. -/
theorem freq_tie_c4_cex :
    (keptCells [Cell.num 5, Cell.num 3]).map cellKey = ["5", "3"] ∧
    (catSummary [Cell.num 5, Cell.num 3]).mostCommon = some ("3", 1) :=
  ⟨by with_unfolding_all rfl, by with_unfolding_all rfl⟩

/-! ## C6 -/

theorem sumCounts_bump (acc : List (String × Nat)) (k : String) :
    ((bump acc k).map (fun e => e.2)).sum = (acc.map (fun e => e.2)).sum + 1 := by
  induction acc with
  | nil => simp [bump]
  | cons a t ih =>
    simp only [bump]
    by_cases h : a.1 = k
    · rw [if_pos h]
      simp only [List.map_cons, List.sum_cons]
      omega
    · rw [if_neg h]
      simp only [List.map_cons, List.sum_cons, ih]
      omega

theorem sumCounts_foldl (ks : List String) :
    ∀ acc : List (String × Nat),
      (((ks.foldl bump acc).map (fun e => e.2)).sum) =
        (acc.map (fun e => e.2)).sum + ks.length := by
  induction ks with
  | nil => intro acc; simp
  | cons k kt ih =>
    intro acc
    rw [List.foldl_cons, ih (bump acc k), sumCounts_bump, List.length_cons]
    omega

theorem sumCounts_tally (ks : List String) :
    ((tally ks).map (fun e => e.2)).sum = ks.length := by
  rw [tally, sumCounts_foldl]
  simp

theorem abs_round1_sub (q : ℚ) : |round1 q - q| ≤ 1 / 20 := by
  unfold round1
  have h := abs_sub_round (q * 10)
  rw [abs_sub_comm] at h
  have heq : ((round (q * 10) : ℤ) : ℚ) / 10 - q =
      (((round (q * 10) : ℤ) : ℚ) - q * 10) / 10 := by ring
  rw [heq, abs_div]
  have h10 : |(10 : ℚ)| = 10 := by norm_num
  rw [h10]
  linarith

theorem sum_map_round1_close (l : List ℚ) :
    |(l.map round1).sum - l.sum| ≤ l.length * (1 / 20 : ℚ) := by
  induction l with
  | nil => simp
  | cons a t ih =>
    simp only [List.map_cons, List.sum_cons, List.length_cons]
    have h1 := abs_round1_sub a
    have heq : round1 a + (t.map round1).sum - (a + t.sum) =
        (round1 a - a) + ((t.map round1).sum - t.sum) := by ring
    rw [heq]
    push_cast
    calc |(round1 a - a) + ((t.map round1).sum - t.sum)|
        ≤ |round1 a - a| + |(t.map round1).sum - t.sum| := abs_add _ _
      _ ≤ 1 / 20 + t.length * (1 / 20 : ℚ) := add_le_add h1 ih
      _ = ((t.length : ℚ) + 1) * (1 / 20 : ℚ) := by ring

theorem cast_sum_map (l : List (String × Nat)) :
    (l.map (fun e => (e.2 : ℚ))).sum = (((l.map (fun e => e.2)).sum : Nat) : ℚ) := by
  induction l with
  | nil => simp
  | cons a t ih => simp [ih]

theorem sum_map_pct (l : List (String × Nat)) (T : ℚ) :
    (l.map (fun e => (e.2 : ℚ) / T * 100)).sum =
      ((l.map (fun e => e.2)).sum : ℚ) / T * 100 := by
  induction l with
  | nil => simp
  | cons a t ih =>
    simp only [List.map_cons, List.sum_cons, ih]
    ring

/-- C6: every emitted frequency entry's percentage is the 1-digit rounding
of 100 × count / (the whole column's non-empty total, not the truncated
slice's), and over the untruncated distribution the rounded percentages sum
to 100 within the rounding tolerance of 1/20 per entry. -/
theorem freq_percentage_c6 (rows : List Row) (col : String) (limit : Nat) :
    (∀ e ∈ getChartData rows col limit,
      e.percentage = round1 ((e.value : ℚ) / (chartTotal rows col : ℚ) * 100)) ∧
    (chartTotal rows col ≠ 0 →
      |((chartEntriesAll rows col).map ChartEntry.percentage).sum - 100| ≤
        (chartEntriesAll rows col).length * (1 / 20 : ℚ)) := by
  constructor
  · intro e he
    simp only [getChartData] at he
    split at he
    · simp at he
    · rw [List.mem_map] at he
      obtain ⟨f, -, rfl⟩ := he
      rfl
  · intro hT
    have hTQ : (chartTotal rows col : ℚ) ≠ 0 := Nat.cast_ne_zero.mpr hT
    simp only [chartEntriesAll, List.map_map, List.length_map]
    have hcomp : (ChartEntry.percentage ∘ projEntry (chartTotal rows col)) =
        fun f : String × Nat =>
          round1 ((f.2 : ℚ) / (chartTotal rows col : ℚ) * 100) := rfl
    rw [hcomp]
    have hmap : (sortDesc (jsEntries (chartFreq rows col))).map
          (fun f : String × Nat => round1 ((f.2 : ℚ) / (chartTotal rows col : ℚ) * 100)) =
        ((sortDesc (jsEntries (chartFreq rows col))).map
          (fun f : String × Nat => (f.2 : ℚ) / (chartTotal rows col : ℚ) * 100)).map
          round1 := by
      rw [List.map_map]
      rfl
    rw [hmap]
    have hclose := sum_map_round1_close
      ((sortDesc (jsEntries (chartFreq rows col))).map
        (fun f : String × Nat => (f.2 : ℚ) / (chartTotal rows col : ℚ) * 100))
    have hperm : (sortDesc (jsEntries (chartFreq rows col))).Perm (chartFreq rows col) :=
      (sortDesc_perm _).trans (jsEntries_perm _)
    have hcntNat : ((sortDesc (jsEntries (chartFreq rows col))).map
        (fun e : String × Nat => e.2)).sum = chartTotal rows col := by
      rw [(hperm.map (fun e : String × Nat => e.2)).sum_eq, chartFreq, sumCounts_tally,
        List.length_map]
      rfl
    have hsum : ((sortDesc (jsEntries (chartFreq rows col))).map
        (fun f : String × Nat => (f.2 : ℚ) / (chartTotal rows col : ℚ) * 100)).sum = 100 := by
      rw [sum_map_pct, cast_sum_map, hcntNat, div_self hTQ, one_mul]
    rw [hsum] at hclose
    simpa using hclose

/-! ## C7 -/

theorem foldl_min_le (xs : List ℚ) :
    ∀ a : ℚ, xs.foldl min a ≤ a ∧ ∀ x ∈ xs, xs.foldl min a ≤ x := by
  induction xs with
  | nil => intro a; exact ⟨le_refl a, by simp⟩
  | cons b t ih =>
    intro a
    rw [List.foldl_cons]
    obtain ⟨h1, h2⟩ := ih (min a b)
    refine ⟨le_trans h1 (min_le_left a b), ?_⟩
    intro x hx
    rcases List.mem_cons.1 hx with rfl | hx'
    · exact le_trans h1 (min_le_right a x)
    · exact h2 x hx'

theorem le_foldl_max (xs : List ℚ) :
    ∀ a : ℚ, a ≤ xs.foldl max a ∧ ∀ x ∈ xs, x ≤ xs.foldl max a := by
  induction xs with
  | nil => intro a; exact ⟨le_refl a, by simp⟩
  | cons b t ih =>
    intro a
    rw [List.foldl_cons]
    obtain ⟨h1, h2⟩ := ih (max a b)
    refine ⟨le_trans (le_max_left a b) h1, ?_⟩
    intro x hx
    rcases List.mem_cons.1 hx with rfl | hx'
    · exact le_trans (le_max_right a x) h1
    · exact h2 x hx'

theorem jsMin_le {l : List ℚ} {x : ℚ} (h : x ∈ l) : jsMin l ≤ x := by
  cases l with
  | nil => simp at h
  | cons a t =>
    simp only [jsMin]
    rcases List.mem_cons.1 h with rfl | hx
    · exact (foldl_min_le t x).1
    · exact (foldl_min_le t a).2 x hx

theorem le_jsMax {l : List ℚ} {x : ℚ} (h : x ∈ l) : x ≤ jsMax l := by
  cases l with
  | nil => simp at h
  | cons a t =>
    simp only [jsMax]
    rcases List.mem_cons.1 h with rfl | hx
    · exact (le_foldl_max t x).1
    · exact (le_foldl_max t a).2 x hx

theorem insortAsc_perm (x : ℚ) (l : List ℚ) : (insortAsc x l).Perm (x :: l) := by
  induction l with
  | nil => exact List.Perm.refl _
  | cons y ys ih =>
    simp only [insortAsc]
    by_cases h : y < x
    · rw [if_pos h]
      exact (ih.cons y).trans (List.Perm.swap x y ys)
    · rw [if_neg h]

theorem sortAsc_perm (l : List ℚ) : (sortAsc l).Perm l := by
  induction l with
  | nil => exact List.Perm.refl _
  | cons a t ih =>
    have hrw : sortAsc (a :: t) = insortAsc a (sortAsc t) := rfl
    rw [hrw]
    exact (insortAsc_perm a (sortAsc t)).trans (ih.cons a)

theorem length_mul_le_sum (l : List ℚ) (m : ℚ) (h : ∀ x ∈ l, m ≤ x) :
    (l.length : ℚ) * m ≤ l.sum := by
  induction l with
  | nil => simp
  | cons a t ih =>
    simp only [List.length_cons, List.sum_cons]
    have ha := h a (List.mem_cons_self a t)
    have ht := ih fun x hx => h x (List.mem_cons_of_mem a hx)
    push_cast
    have hexp : ((t.length : ℚ) + 1) * m = (t.length : ℚ) * m + m := by ring
    rw [hexp]
    linarith

theorem sum_le_length_mul (l : List ℚ) (M : ℚ) (h : ∀ x ∈ l, x ≤ M) :
    l.sum ≤ (l.length : ℚ) * M := by
  induction l with
  | nil => simp
  | cons a t ih =>
    simp only [List.length_cons, List.sum_cons]
    have ha := h a (List.mem_cons_self a t)
    have ht := ih fun x hx => h x (List.mem_cons_of_mem a hx)
    push_cast
    have hexp : ((t.length : ℚ) + 1) * M = (t.length : ℚ) * M + M := by ring
    rw [hexp]
    linarith

theorem round2_mono {a b : ℚ} (h : a ≤ b) : round2 a ≤ round2 b := by
  unfold round2
  have hr : round (a * 100) ≤ round (b * 100) := by
    rw [round_eq, round_eq]
    exact Int.floor_mono (by linarith)
  have hc : ((round (a * 100) : ℤ) : ℚ) ≤ ((round (b * 100) : ℤ) : ℚ) := by
    exact_mod_cast hr
  linarith

theorem medianOf_bounds (n : List ℚ) (hlen : 0 < n.length) :
    jsMin n ≤ medianOf (sortAsc n) ∧ medianOf (sortAsc n) ≤ jsMax n := by
  have hslen : (sortAsc n).length = n.length := (sortAsc_perm n).length_eq
  have h0 : 0 < (sortAsc n).length := by rw [hslen]; exact hlen
  have hsub : ∀ y ∈ sortAsc n, y ∈ n := fun y hy => (sortAsc_perm n).subset hy
  have hmid : (sortAsc n).length / 2 < (sortAsc n).length :=
    Nat.div_lt_self h0 (by norm_num)
  have hmid1 : (sortAsc n).length / 2 - 1 < (sortAsc n).length := by omega
  unfold medianOf
  by_cases hpar : (sortAsc n).length % 2 = 0
  · rw [if_pos hpar]
    have h1 : (sortAsc n).getD ((sortAsc n).length / 2 - 1) 0 ∈ n :=
      hsub _ (getD_mem _ _ 0 hmid1)
    have h2 : (sortAsc n).getD ((sortAsc n).length / 2) 0 ∈ n :=
      hsub _ (getD_mem _ _ 0 hmid)
    constructor
    · have hb1 := jsMin_le h1
      have hb2 := jsMin_le h2
      linarith
    · have hb1 := le_jsMax h1
      have hb2 := le_jsMax h2
      linarith
  · rw [if_neg hpar]
    have h2 : (sortAsc n).getD ((sortAsc n).length / 2) 0 ∈ n :=
      hsub _ (getD_mem _ _ 0 hmid)
    exact ⟨jsMin_le h2, le_jsMax h2⟩

theorem mean_bounds (n : List ℚ) (hlen : 0 < n.length) :
    jsMin n ≤ n.sum / n.length ∧ n.sum / n.length ≤ jsMax n := by
  have hlb := length_mul_le_sum n (jsMin n) fun x hx => jsMin_le hx
  have hub := sum_le_length_mul n (jsMax n) fun x hx => le_jsMax hx
  have hlQ : (0 : ℚ) < n.length := by exact_mod_cast hlen
  constructor
  · rw [le_div_iff₀ hlQ, mul_comm]
    exact hlb
  · rw [div_le_iff₀ hlQ, mul_comm]
    exact hub

/-- C7: for every column the classifier marks NUMERIC, the reported summary
satisfies min ≤ median ≤ max and min ≤ mean ≤ max, where the fields are the
2-digit roundings of mean = sum/count, of the median of the full ascending
sort of the coerced values, and of the extrema. -/
theorem numeric_stats_c7 (values : List Cell) (h : classify values = .numeric) :
    analyzeColumn values = .numeric (numSummary values) ∧
    (numSummary values).min ≤ (numSummary values).median ∧
    (numSummary values).median ≤ (numSummary values).max ∧
    (numSummary values).min ≤ (numSummary values).mean ∧
    (numSummary values).mean ≤ (numSummary values).max := by
  have hpos : 0 < (numericCells values).length := by
    by_contra hc
    have hcond : ¬(2 * (numericCells values).length > (keptCells values).length ∧
        (numericCells values).length > 0) := by omega
    unfold classify at h
    rw [if_neg hcond] at h
    exact absurd h (by decide)
  have hlen : 0 < (colNumbers values).length := by
    rw [colNumbers, List.length_map]
    exact hpos
  have hmed := medianOf_bounds (colNumbers values) hlen
  have hmean := mean_bounds (colNumbers values) hlen
  have hAC : analyzeColumn values = .numeric (numSummary values) := by
    unfold analyzeColumn
    rw [h]
  exact ⟨hAC, round2_mono hmed.1, round2_mono hmed.2,
    round2_mono hmean.1, round2_mono hmean.2⟩

/-- Input for the C7 witness: a plainly numeric column. -/
def c7Rows : List Cell := [Cell.num 50, Cell.num 100, Cell.num 200]

/-- Witness for C7 at a concrete numeric column. -/
theorem numeric_stats_c7_witness :
    classify c7Rows = .numeric ∧
    ((numSummary c7Rows).min ≤ (numSummary c7Rows).median ∧
      (numSummary c7Rows).median ≤ (numSummary c7Rows).max ∧
      (numSummary c7Rows).min ≤ (numSummary c7Rows).mean ∧
      (numSummary c7Rows).mean ≤ (numSummary c7Rows).max) :=
  ⟨by with_unfolding_all rfl,
    (numeric_stats_c7 c7Rows (by with_unfolding_all rfl)).2⟩
